import Mathlib

/-!
# go-pusher: session and dispatch engine

A shallow embedding of `client.go`, `event.go` and `pusher.go`.

Conventions of the embedding.

* A Go `error` is represented by its message (`Option String`, `none` for `nil`).
* The websocket connection is a record of what the client did to it: the
  frames handed to `websocket.Message.Send`, oldest first, and whether
  `Close` was called.  Whether a send fails is decided by the transport, so
  the result of each send is an input of the operation that performs it.
* Go channels of `*Event` live in a heap (`Client.chans`); a channel value is
  an index into that heap.  `make` allocates at the end of the heap.
* Sending on a closed channel and closing a closed channel panic; sending on
  a full channel and receiving from an empty open channel block.  Both are
  results of the operations (`Outcome.panic`, `Outcome.blocked`).
* Each call of a method and each iteration of a background loop is one
  atomic step; the mutex `Client.m` is this atomicity, and interleavings
  inside a call are not modelled.
-/

set_option linter.dupNamespace false

namespace Pusher

/-! ## pusher.go -/

def PROTOCOL_VERSION : String := "7"

/-- Capacity of the channel returned by `Bind`. -/
def EVENT_CHANNEL_BUFF_SIZE : Nat := 1000

/-- Seconds between two heartbeats. -/
def HEARTBEAT_RATE : Nat := 30

/-! ## event.go -/

/-- Go: `type Event struct { Event string; Data string }`. -/
structure Event where
  Event : String
  Data : String
deriving DecidableEq, Repr

/-- Go: `type eventError struct { Message string; Code int }`; the Go `int`
is an integer here, and `toString` prints it as `%d` does. -/
structure eventError where
  Message : String
  Code : Int
deriving DecidableEq, Repr

/-! ## Results of operations that may panic or block -/

/-- Result of running a piece of Go code that may panic or block forever. -/
inductive Outcome (α : Type) where
  | ok (a : α)
  | panic
  | blocked
deriving DecidableEq, Repr

/-- Sequencing of outcomes. -/
def Outcome.bind {α β : Type} (o : Outcome α) (f : α → Outcome β) : Outcome β :=
  match o with
  | .ok a => f a
  | .panic => .panic
  | .blocked => .blocked

/-! ## Go channels of events -/

/-- A buffered Go channel `chan *Event`: the buffered values, oldest first,
its capacity and whether it was closed. -/
structure Chan where
  buf : List Event
  cap : Nat
  closed : Bool
deriving DecidableEq, Repr

/-- Go: `make(chan *Event, n)`. -/
def Chan.make (n : Nat) : Chan := { buf := [], cap := n, closed := false }

/-- Go: `ch <- e`. -/
def Chan.send (ch : Chan) (e : Event) : Outcome Chan :=
  if ch.closed then .panic
  else if ch.buf.length < ch.cap then .ok { ch with buf := ch.buf ++ [e] }
  else .blocked

/-- Go: `close(ch)`. -/
def Chan.close (ch : Chan) : Outcome Chan :=
  if ch.closed then .panic else .ok { ch with closed := true }

/-- Go: `e, ok := <-ch`; `none` is the receive that completes without a
value on a closed and drained channel. -/
def Chan.recv (ch : Chan) : Outcome (Chan × Option Event) :=
  match ch.buf with
  | e :: rest => .ok ({ ch with buf := rest }, some e)
  | [] => if ch.closed then .ok (ch, none) else .blocked

/-! ## The websocket connection -/

/-- What the client did to its `*websocket.Conn`. -/
structure Conn where
  sent : List String
  closed : Bool
deriving DecidableEq, Repr

/-- The connection after `websocket.Message.Send(ws, msg)`; the error the
call returns is chosen by the transport. -/
def Conn.Send (ws : Conn) (msg : String) : Conn :=
  { ws with sent := ws.sent ++ [msg] }

/-- The connection after `ws.Close()`. -/
def Conn.Close (ws : Conn) : Conn := { ws with closed := true }

/-! ## The subscription registry -/

/-- Modelled from the spec: the type `subscribedChannels` and its methods
`contains`, `add` and `remove` are used by `client.go` but declared in a file
that is not among the sources.  The spec (4.4) gives a unique-name set with
`contains(name) -> bool`, `add(name) -> error if already present` and
`remove(name)`; `NewCustomClient` shows the backing field
`channels []string`. -/
structure subscribedChannels where
  channels : List String
deriving DecidableEq, Repr

/-- Modelled from the spec: `contains(name) -> bool`. -/
def subscribedChannels.contains (s : subscribedChannels) (channel : String) : Bool :=
  s.channels.contains channel

/-- Modelled from the spec: `add(name) -> error if already present`.  The
text of the error is not given by the spec. -/
def subscribedChannels.add (s : subscribedChannels) (channel : String) :
    subscribedChannels × Option String :=
  if s.contains channel then (s, some ("Channel " ++ channel ++ " already present"))
  else ({ channels := s.channels ++ [channel] }, none)

/-- Modelled from the spec: `remove(name)`. -/
def subscribedChannels.remove (s : subscribedChannels) (channel : String) :
    subscribedChannels :=
  { channels := s.channels.filter (fun c => c != channel) }

/-! ## client.go: the client -/

/-- Go: `type Client struct`, together with the heap of event channels its
methods allocate and the lines written with `log.Println`.  The mutex `m` is
the atomicity of the methods.  `heartbeatStopCh` is the number of values
pending in the `chan struct{}` of capacity 1. -/
structure Client where
  ws : Conn
  subscribedChannels : subscribedChannels
  binders : List (String × Nat)
  heartbeatStopCh : Nat
  chans : List Chan
  logged : List String
deriving DecidableEq, Repr

/-- Go: `binder, ok := c.binders[evt]`. -/
def mapLookup (m : List (String × Nat)) (k : String) : Option Nat :=
  match m with
  | [] => none
  | (k1, v) :: rest => if k1 = k then some v else mapLookup rest k

/-- Go: `delete(c.binders, evt)`. -/
def mapDelete (m : List (String × Nat)) (k : String) : List (String × Nat) :=
  m.filter (fun kv => kv.1 != k)

/-- Go: `c.binders[evt] = v`. -/
def mapInsert (m : List (String × Nat)) (k : String) (v : Nat) : List (String × Nat) :=
  match m with
  | [] => [(k, v)]
  | (k1, v1) :: rest => if k1 = k then (k1, v) :: rest else (k1, v1) :: mapInsert rest k v

/-- Go: `ch <- e` for the channel value `q`; a channel value that is not in
the heap behaves as the nil channel, on which a send blocks forever. -/
def chanSend (chans : List Chan) (q : Nat) (e : Event) : Outcome (List Chan) :=
  match chans[q]? with
  | none => .blocked
  | some ch => (ch.send e).bind (fun ch1 => .ok (chans.set q ch1))

/-- Go: `close(ch)` for the channel value `q`; closing the nil channel panics. -/
def chanClose (chans : List Chan) (q : Nat) : Outcome (List Chan) :=
  match chans[q]? with
  | none => .panic
  | some ch => ch.close.bind (fun ch1 => .ok (chans.set q ch1))

def pingFrame : String := "\x7b\"event\":\"pusher:ping\",\"data\":\"\x7b\x7d\"\x7d"

def pongFrame : String := "\x7b\"event\":\"pusher:pong\",\"data\":\"\x7b\x7d\"\x7d"

/-- Go: `fmt.Sprintf` of the subscribe frame. -/
def subscribeFrame (channel : String) : String :=
  "\x7b\"event\":\"pusher:subscribe\",\"data\":\x7b\"channel\":\"" ++ channel ++ "\"\x7d\x7d"

/-- Go: `fmt.Sprintf` of the unsubscribe frame. -/
def unsubscribeFrame (channel : String) : String :=
  "\x7b\"event\":\"pusher:unsubscribe\",\"data\":\x7b\"channel\":\"" ++ channel ++ "\"\x7d\x7d"

/-- Go: `Client.Subscribe`; `sendErr` is what `websocket.Message.Send`
returns if the call reaches it. -/
def Client.Subscribe (c : Client) (channel : String) (sendErr : Option String) :
    Client × Option String :=
  if c.subscribedChannels.contains channel then
    (c, some ("Channel " ++ channel ++ " already subscribed"))
  else
    let c1 := { c with ws := c.ws.Send (subscribeFrame channel) }
    match sendErr with
    | some e => (c1, some e)
    | none =>
      let r := c1.subscribedChannels.add channel
      ({ c1 with subscribedChannels := r.1 }, r.2)

/-- Go: `Client.Unsubscribe`; `sendErr` is what `websocket.Message.Send`
returns if the call reaches it. -/
def Client.Unsubscribe (c : Client) (channel : String) (sendErr : Option String) :
    Client × Option String :=
  if !c.subscribedChannels.contains channel then
    (c, some ("Client isn\x27t subscrived to " ++ channel))
  else
    let c1 := { c with ws := c.ws.Send (unsubscribeFrame channel) }
    match sendErr with
    | some e => (c1, some e)
    | none => ({ c1 with subscribedChannels := c1.subscribedChannels.remove channel }, none)

/-- What `Client.Bind` returns: `dataChannel` (`none` for the nil channel)
and `err`. -/
structure BindResult where
  client : Client
  dataChannel : Option Nat
  err : Option String
deriving DecidableEq, Repr

/-- Go: `Client.Bind`. -/
def Client.Bind (c : Client) (evt : String) : BindResult :=
  match mapLookup c.binders evt with
  | some _ => { client := c, dataChannel := none, err := some ("Event " ++ evt ++ " already binded") }
  | none =>
    let dataChannel := c.chans.length
    { client := { c with chans := c.chans ++ [Chan.make EVENT_CHANNEL_BUFF_SIZE],
                         binders := mapInsert c.binders evt dataChannel },
      dataChannel := some dataChannel,
      err := none }

/-- Go: `Client.Unbind`. -/
def Client.Unbind (c : Client) (evt : String) : Client :=
  { c with binders := mapDelete c.binders evt }

/-- The loop of `Client.Close` over the entries `todo` of the map that are
still to be visited: `close(binder); delete(c.binders, evt)`. -/
def closeBinders (todo : List (String × Nat)) (c : Client) : Outcome Client :=
  match todo with
  | [] => .ok c
  | (evt, binder) :: rest =>
    (chanClose c.chans binder).bind (fun chans1 =>
      closeBinders rest { c with chans := chans1, binders := mapDelete c.binders evt })

/-- Go: `Client.Close`.  The map is ranged over in the order of the list; a
run without panic ends in the same state for every order. -/
def Client.Close (c : Client) : Outcome Client :=
  let c1 := { c with ws := c.ws.Close }
  (closeBinders c1.binders c1).bind (fun c2 =>
    if c2.heartbeatStopCh < 1 then .ok { c2 with heartbeatStopCh := c2.heartbeatStopCh + 1 }
    else .ok c2)

/-- One iteration of the loop of `Client.listen`; `recv` is what
`websocket.JSON.Receive` returns.  The boolean tells whether the loop goes
on. -/
def Client.listenIter (c : Client) (recv : Except String Event) : Outcome (Client × Bool) :=
  match recv with
  | .error _ => c.Close.bind (fun c1 => .ok (c1, false))
  | .ok event =>
    if event.Event = "pusher:ping" then
      .ok ({ c with ws := c.ws.Send pongFrame }, true)
    else if event.Event = "pusher:pong" then
      .ok (c, true)
    else if event.Event = "pusher:error" then
      .ok ({ c with logged := c.logged ++ ["Event error recieved:  " ++ event.Data] }, true)
    else
      match mapLookup c.binders event.Event with
      | some binder =>
        (chanSend c.chans binder event).bind (fun chans1 => .ok ({ c with chans := chans1 }, true))
      | none => .ok (c, true)

/-- Go: `Client.listen`, run on the successive results of
`websocket.JSON.Receive`; when they are used up the loop waits in `Receive`. -/
def Client.listen (c : Client) (recvs : List (Except String Event)) : Outcome Client :=
  match recvs with
  | [] => .ok c
  | r :: rest =>
    (c.listenIter r).bind (fun p => if p.2 then Client.listen p.1 rest else .ok p.1)

/-- The dispatch loop on a sequence of frames that were received without
error. -/
def Client.dispatch (c : Client) (frames : List Event) : Outcome Client :=
  c.listen (frames.map Except.ok)

/-- One iteration of the loop of `Client.heartbeat`: the ping is sent, then
`stop` tells which case of the `select` is taken.  The boolean tells whether
the loop goes on. -/
def Client.heartbeatIter (c : Client) (stop : Bool) : Outcome (Client × Bool) :=
  let c1 := { c with ws := c.ws.Send pingFrame }
  if stop then
    if 0 < c1.heartbeatStopCh then .ok ({ c1 with heartbeatStopCh := c1.heartbeatStopCh - 1 }, false)
    else .blocked
  else .ok (c1, true)

/-- A caller receives from the channel value `q` that `Bind` returned. -/
def Client.receive (c : Client) (q : Nat) : Outcome (Client × Option Event) :=
  match c.chans[q]? with
  | none => .blocked
  | some ch => ch.recv.bind (fun r => .ok ({ c with chans := c.chans.set q r.1 }, r.2))

/-! ## The session as a transition system -/

/-- The atomic steps that act on a session: the calls of the API, an
iteration of either background loop, and a caller receiving from a channel
that `Bind` returned. -/
inductive Op where
  | Subscribe (channel : String) (sendErr : Option String)
  | Unsubscribe (channel : String) (sendErr : Option String)
  | Bind (evt : String)
  | Unbind (evt : String)
  | Close
  | listen (recv : Except String Event)
  | heartbeat (stop : Bool)
  | receive (q : Nat)

/-- The state after one step. -/
def Client.step (c : Client) (op : Op) : Outcome Client :=
  match op with
  | .Subscribe channel sendErr => .ok (c.Subscribe channel sendErr).1
  | .Unsubscribe channel sendErr => .ok (c.Unsubscribe channel sendErr).1
  | .Bind evt => .ok (c.Bind evt).client
  | .Unbind evt => .ok (c.Unbind evt)
  | .Close => c.Close
  | .listen recv => (c.listenIter recv).bind (fun p => .ok p.1)
  | .heartbeat stop => (c.heartbeatIter stop).bind (fun p => .ok p.1)
  | .receive q => (c.receive q).bind (fun p => .ok p.1)

/-- The state after a sequence of steps. -/
def Client.run (c : Client) (ops : List Op) : Outcome Client :=
  match ops with
  | [] => .ok c
  | op :: rest => (c.step op).bind (fun c1 => Client.run c1 rest)

/-- The client `pClient` that `NewCustomClient` builds around the connection
`ws`: empty registries, an empty stop channel, and no event channel
allocated yet. -/
def pClient (ws : Conn) : Client :=
  { ws := ws,
    subscribedChannels := { channels := [] },
    binders := [],
    heartbeatStopCh := 0,
    chans := [],
    logged := [] }

/-! ## client.go: the handshake -/

/-- The collaborators of `NewCustomClient`: `websocket.Dial`, the first
`ws.Read` (its result is the text of `resp[0:n]`, the part of the frame that
fits the buffer of 11000 bytes) and `json.Unmarshal` into an `Event` and
into an `eventError`. -/
structure Env where
  Dial : String → String → String → Except String Conn
  Read : Conn → Except String String
  UnmarshalEvent : String → Except String Event
  UnmarshalEventError : String → Except String eventError

/-- The background loops of a client. -/
inductive Goroutine where
  | heartbeat
  | listen
deriving DecidableEq, Repr

/-- What `NewCustomClient` returns, and the goroutines it started. -/
structure NewClientResult where
  client : Option Client
  err : Option String
  started : List Goroutine
deriving DecidableEq, Repr

/-- Go: `NewCustomClient`. -/
def NewCustomClient (env : Env) (appKey host scheme : String) : NewClientResult :=
  let origin := "http://localhost/"
  let url := scheme ++ "://" ++ host ++ "/app/" ++ appKey ++ "?protocol=" ++ PROTOCOL_VERSION
  match env.Dial url "" origin with
  | .error err => { client := none, err := some err, started := [] }
  | .ok ws =>
    match env.Read ws with
    | .error err => { client := none, err := some err, started := [] }
    | .ok resp =>
      match env.UnmarshalEvent resp with
      | .error err => { client := none, err := some err, started := [] }
      | .ok event =>
        if event.Event = "pusher:error" then
          match env.UnmarshalEventError event.Data with
          | .error err => { client := none, err := some err, started := [] }
          | .ok data =>
            { client := none,
              err := some ("Pusher return error : code : " ++ toString data.Code
                            ++ ", message " ++ data.Message),
              started := [] }
        else if event.Event = "pusher:connection_established" then
          { client := some (pClient ws), err := none,
            started := [Goroutine.heartbeat, Goroutine.listen] }
        else
          { client := none, err := some "Ooooops something wrong happen", started := [] }

/-- Go: `NewClient`. -/
def NewClient (env : Env) (appKey : String) : NewClientResult :=
  NewCustomClient env appKey "ws.pusherapp.com:443" "wss"

/-! ## Well-formed sessions -/

/-- The channel value `q` is an open channel of the heap. -/
def chanOpen (chans : List Chan) (q : Nat) : Bool :=
  match chans[q]? with
  | some ch => !ch.closed
  | none => false

/-- The invariant of reachable sessions: the registry is a map, distinct
names are bound to distinct channels, every bound channel is open, and the
stop channel holds at most the one value it has room for. -/
def Inv (c : Client) : Prop :=
  (c.binders.map Prod.fst).Nodup ∧ (c.binders.map Prod.snd).Nodup ∧
  (∀ kv ∈ c.binders, chanOpen c.chans kv.2 = true) ∧ c.heartbeatStopCh ≤ 1


/-- The frame `e` is one that an iteration of `listen` sends into the channel
value `q`: its name is none of the three control names of the `switch` and
the registry maps it to `q`. -/
def routed (binders : List (String × Nat)) (q : Nat) (e : Event) : Bool :=
  e.Event != "pusher:ping" && e.Event != "pusher:pong" && e.Event != "pusher:error"
    && mapLookup binders e.Event == some q

/-- The step `op` is one after which the channel value `q` is still bound as
before and holds what was sent into it: no `Unbind`, no `Close` (a failed
receive of `listen` calls `Close`), and no caller taking a value out of
`q`. -/
def Op.quiet (q : Nat) (op : Op) : Bool :=
  match op with
  | .Unbind _ => false
  | .Close => false
  | .listen (.error _) => false
  | .receive r => r != q
  | _ => true

/-- The frames named `n` that `listen` receives in the steps `ops`, in the
order of their reception. -/
def framesNamed (n : String) (ops : List Op) : List Event :=
  match ops with
  | [] => []
  | .listen (.ok e) :: rest =>
    if e.Event = n then e :: framesNamed n rest else framesNamed n rest
  | _ :: rest => framesNamed n rest

/-! ## Concrete values used to instantiate the theorems -/

/-- A connection on which nothing was sent yet. -/
def ws0 : Conn := { sent := [], closed := false }

/-- The first frame of the rejected handshake of the spec (section 8). -/
def rejectFrame : String :=
  "\x7b\"event\":\"pusher:error\",\"data\":\"\x7b\\\"code\\\":4001,\\\"message\\\":\\\"bad key\\\"\x7d\"\x7d"

/-- The payload of `rejectFrame`. -/
def rejectData : String := "\x7b\"code\":4001,\"message\":\"bad key\"\x7d"

/-- A transport that delivers `rejectFrame` as first frame, with decoders
that know this frame and its payload. -/
def rejectEnv : Env :=
  { Dial := fun _ _ _ => .ok ws0,
    Read := fun _ => .ok rejectFrame,
    UnmarshalEvent := fun s =>
      if s = rejectFrame then .ok { Event := "pusher:error", Data := rejectData }
      else .error "invalid character",
    UnmarshalEventError := fun s =>
      if s = rejectData then .ok { Message := "bad key", Code := 4001 }
      else .error "invalid character" }

/-! ## Outcomes -/

theorem Outcome.bind_eq_ok {α β : Type} (o : Outcome α) (f : α → Outcome β) (b : β) :
    o.bind f = .ok b ↔ ∃ a, o = .ok a ∧ f a = .ok b := by
  cases o <;> simp [Outcome.bind]

theorem Outcome.bind_eq_panic {α β : Type} (o : Outcome α) (f : α → Outcome β) :
    o.bind f = .panic ↔ o = .panic ∨ ∃ a, o = .ok a ∧ f a = .panic := by
  cases o <;> simp [Outcome.bind]

/-! ## The registry of binders as a map -/

theorem mem_of_mapLookup {m : List (String × Nat)} {k : String} {v : Nat}
    (h : mapLookup m k = some v) : (k, v) ∈ m := by
  induction m with
  | nil => simp [mapLookup] at h
  | cons kv rest ih =>
    obtain ⟨k1, v1⟩ := kv
    simp only [mapLookup] at h
    split at h
    · rename_i hk
      simp only [Option.some.injEq] at h
      subst hk; subst h
      exact List.mem_cons_self _ _
    · exact List.mem_cons_of_mem _ (ih h)

theorem mapLookup_none_iff {m : List (String × Nat)} {k : String} :
    mapLookup m k = none ↔ k ∉ m.map Prod.fst := by
  induction m with
  | nil => simp [mapLookup]
  | cons kv rest ih =>
    obtain ⟨k1, v1⟩ := kv
    simp only [mapLookup, List.map_cons, List.mem_cons, not_or]
    split
    · rename_i hk
      simp [hk]
    · rename_i hk
      rw [ih]
      constructor
      · intro h
        exact ⟨fun h1 => hk h1.symm, h⟩
      · intro h
        exact h.2

theorem mapLookup_of_mem {m : List (String × Nat)} {k : String} {v : Nat}
    (hnd : (m.map Prod.fst).Nodup) (h : (k, v) ∈ m) : mapLookup m k = some v := by
  induction m with
  | nil => simp at h
  | cons kv rest ih =>
    obtain ⟨k1, v1⟩ := kv
    simp only [List.map_cons, List.nodup_cons] at hnd
    simp only [mapLookup]
    rcases List.mem_cons.mp h with h1 | h1
    · simp only [Prod.mk.injEq] at h1
      simp [h1.1, h1.2]
    · have hk : k1 ≠ k := by
        intro hk
        apply hnd.1
        rw [hk]
        exact List.mem_map_of_mem Prod.fst h1
      simp only [hk, if_false]
      exact ih hnd.2 h1

theorem mapInsert_of_lookup_none {m : List (String × Nat)} {k : String} (v : Nat)
    (h : mapLookup m k = none) : mapInsert m k v = m ++ [(k, v)] := by
  induction m with
  | nil => simp [mapInsert]
  | cons kv rest ih =>
    obtain ⟨k1, v1⟩ := kv
    simp only [mapLookup] at h
    split at h
    · simp at h
    · rename_i hk
      simp [mapInsert, hk, ih h]

theorem mem_of_mem_mapDelete {m : List (String × Nat)} {k : String} {kv : String × Nat}
    (h : kv ∈ mapDelete m k) : kv ∈ m :=
  (List.mem_filter.mp h).1

theorem mapDelete_sublist (m : List (String × Nat)) (k : String) :
    (mapDelete m k).Sublist m :=
  List.filter_sublist m

/-! ## The heap of channels -/

theorem chanOpen_iff {chans : List Chan} {q : Nat} :
    chanOpen chans q = true ↔ ∃ ch, chans[q]? = some ch ∧ ch.closed = false := by
  unfold chanOpen
  cases h : chans[q]? <;> simp

theorem lt_length_of_chanOpen {chans : List Chan} {q : Nat}
    (h : chanOpen chans q = true) : q < chans.length := by
  obtain ⟨ch, hch, _⟩ := chanOpen_iff.mp h
  by_contra hlt
  rw [List.getElem?_eq_none (Nat.le_of_not_lt hlt)] at hch
  simp at hch

theorem chanOpen_set_ne {chans : List Chan} {q r : Nat} (ch : Chan) (h : q ≠ r) :
    chanOpen (chans.set q ch) r = chanOpen chans r := by
  unfold chanOpen
  rw [List.getElem?_set_ne h]

theorem chanOpen_set_self {chans : List Chan} {q : Nat} (ch : Chan) (h : q < chans.length) :
    chanOpen (chans.set q ch) q = !ch.closed := by
  unfold chanOpen
  rw [List.getElem?_set, if_pos rfl, if_pos h]

theorem chanOpen_append {chans : List Chan} {q : Nat} (more : List Chan)
    (h : chanOpen chans q = true) : chanOpen (chans ++ more) q = true := by
  have hlt := lt_length_of_chanOpen h
  unfold chanOpen at h ⊢
  rw [List.getElem?_append_left hlt]
  exact h

/-- Setting a slot to a channel with the same `closed` flag keeps every
channel as open as it was. -/
theorem chanOpen_set_same {chans : List Chan} {q : Nat} {ch ch1 : Chan}
    (hq : chans[q]? = some ch) (hc : ch1.closed = ch.closed) (r : Nat) :
    chanOpen (chans.set q ch1) r = chanOpen chans r := by
  by_cases hqr : q = r
  · subst hqr
    have hlt : q < chans.length := by
      by_contra hlt
      rw [List.getElem?_eq_none (Nat.le_of_not_lt hlt)] at hq
      simp at hq
    rw [chanOpen_set_self _ hlt]
    unfold chanOpen
    rw [hq, hc]
  · exact chanOpen_set_ne _ hqr

/-! ## Close -/

theorem chanClose_of_open {chans : List Chan} {q : Nat} {ch : Chan}
    (hq : chans[q]? = some ch) (hc : ch.closed = false) :
    chanClose chans q = .ok (chans.set q { ch with closed := true }) := by
  simp [chanClose, hq, Chan.close, hc, Outcome.bind]

/-- On a heap where the channels of `todo` are open and pairwise distinct,
the loop of `Close` ends without panic; it closes exactly those channels and
deletes exactly their names. -/
theorem closeBinders_ok (todo : List (String × Nat)) :
    ∀ c : Client, (todo.map Prod.snd).Nodup →
      (∀ kv ∈ todo, chanOpen c.chans kv.2 = true) →
      ∃ c2, closeBinders todo c = .ok c2 ∧
        c2.ws = c.ws ∧ c2.subscribedChannels = c.subscribedChannels ∧
        c2.heartbeatStopCh = c.heartbeatStopCh ∧ c2.logged = c.logged ∧
        (∀ kv, kv ∈ c2.binders → kv ∈ c.binders ∧ kv.1 ∉ todo.map Prod.fst) ∧
        c2.chans.length = c.chans.length ∧
        (∀ q, q ∉ todo.map Prod.snd → c2.chans[q]? = c.chans[q]?) ∧
        (∀ q ∈ todo.map Prod.snd, ∀ ch, c.chans[q]? = some ch →
          c2.chans[q]? = some { ch with closed := true }) := by
  induction todo with
  | nil =>
    intro c _ _
    exact ⟨c, rfl, rfl, rfl, rfl, rfl, fun kv h => ⟨h, by simp⟩, rfl, fun _ _ => rfl,
      fun q hq => by simp at hq⟩
  | cons t rest ih =>
    intro c hnd hopen
    obtain ⟨evt, binder⟩ := t
    simp only [List.map_cons, List.nodup_cons] at hnd
    obtain ⟨ch, hch, hcl⟩ := chanOpen_iff.mp (hopen (evt, binder) (List.mem_cons_self _ _))
    have hlt : binder < c.chans.length := lt_length_of_chanOpen (hopen _ (List.mem_cons_self _ _))
    have hrest : ∀ kv ∈ rest,
        chanOpen (c.chans.set binder { ch with closed := true }) kv.2 = true := by
      intro kv hkv
      have hne : binder ≠ kv.2 := by
        intro h
        apply hnd.1
        rw [h]
        exact List.mem_map_of_mem Prod.snd hkv
      rw [chanOpen_set_ne _ hne]
      exact hopen kv (List.mem_cons_of_mem _ hkv)
    obtain ⟨c2, hrun, hws, hsub, hstop, hlog, hbind, hlen, hother, hclosed⟩ :=
      ih { c with chans := c.chans.set binder { ch with closed := true },
                  binders := mapDelete c.binders evt } hnd.2 hrest
    refine ⟨c2, ?_, hws, hsub, hstop, hlog, ?_, ?_, ?_, ?_⟩
    · simp only [closeBinders, chanClose_of_open hch hcl, Outcome.bind]
      exact hrun
    · intro kv hkv
      obtain ⟨h1, h2⟩ := hbind kv hkv
      have h3 := List.mem_filter.mp h1
      refine ⟨h3.1, ?_⟩
      simp only [List.map_cons, List.mem_cons, not_or]
      refine ⟨?_, h2⟩
      have h4 := h3.2
      simp only [bne_iff_ne, ne_eq] at h4
      exact h4
    · rw [hlen]
      simp
    · intro q hq
      simp only [List.map_cons, List.mem_cons, not_or] at hq
      rw [hother q hq.2]
      exact List.getElem?_set_ne (fun h => hq.1 h.symm)
    · intro q hq ch0 hch0
      simp only [List.map_cons, List.mem_cons] at hq
      by_cases hqb : q = binder
      · subst hqb
        rw [hother q hnd.1]
        rw [hch] at hch0
        simp only [Option.some.injEq] at hch0
        subst hch0
        simp only []
        rw [List.getElem?_set, if_pos rfl, if_pos hlt]
      · have hq1 : q ∈ rest.map Prod.snd := by
          rcases hq with h | h
          · exact absurd h hqb
          · exact h
        apply hclosed q hq1
        simp only []
        rw [List.getElem?_set_ne (fun h => hqb h.symm)]
        exact hch0

/-- On a well-formed session `Close` ends without panic and without
blocking, in a state with an empty registry, a closed connection and one
pending stop value; the channels of the registry are closed and the other
channels are untouched. -/
theorem Close_ok {c : Client} (h : Inv c) :
    ∃ c1, c.Close = .ok c1 ∧
      c1.ws = c.ws.Close ∧ c1.subscribedChannels = c.subscribedChannels ∧
      c1.heartbeatStopCh = 1 ∧ c1.logged = c.logged ∧ c1.binders = [] ∧
      c1.chans.length = c.chans.length ∧
      (∀ q, q ∉ c.binders.map Prod.snd → c1.chans[q]? = c.chans[q]?) ∧
      (∀ q ∈ c.binders.map Prod.snd, ∀ ch, c.chans[q]? = some ch →
        c1.chans[q]? = some { ch with closed := true }) := by
  obtain ⟨_, hvals, hopen, hstop⟩ := h
  obtain ⟨c2, hrun, hws, hsub, hst, hlog, hbind, hlen, hother, hclosed⟩ :=
    closeBinders_ok c.binders { c with ws := c.ws.Close } hvals hopen
  have hnil : c2.binders = [] := by
    apply List.eq_nil_iff_forall_not_mem.mpr
    intro kv hkv
    obtain ⟨h1, h2⟩ := hbind kv hkv
    exact h2 (List.mem_map_of_mem Prod.fst h1)
  by_cases hlt : c2.heartbeatStopCh < 1
  · refine ⟨{ c2 with heartbeatStopCh := c2.heartbeatStopCh + 1 }, ?_, hws, hsub, ?_, hlog,
      hnil, hlen, hother, hclosed⟩
    · simp only [Client.Close, hrun, Outcome.bind, hlt, if_true]
    · simp only []
      omega
  · refine ⟨c2, ?_, hws, hsub, ?_, hlog, hnil, hlen, hother, hclosed⟩
    · simp only [Client.Close, hrun, Outcome.bind, hlt, if_false]
    · simp only [] at hst
      omega

/-! ## The invariant is kept by every step -/

theorem Inv_pClient (ws : Conn) : Inv (pClient ws) := by
  simp [Inv, pClient]

/-- A state with the same registry, channels that are as open as before and
a stop channel within its capacity is well formed. -/
theorem Inv_of_same {c c1 : Client} (h : Inv c) (hb : c1.binders = c.binders)
    (ho : ∀ q, chanOpen c1.chans q = chanOpen c.chans q) (hs : c1.heartbeatStopCh ≤ 1) :
    Inv c1 := by
  obtain ⟨h1, h2, h3, _⟩ := h
  refine ⟨by rw [hb]; exact h1, by rw [hb]; exact h2, ?_, hs⟩
  intro kv hkv
  rw [ho]
  rw [hb] at hkv
  exact h3 kv hkv

theorem Inv_Subscribe {c : Client} (h : Inv c) (channel : String) (sendErr : Option String) :
    Inv (c.Subscribe channel sendErr).1 := by
  unfold Client.Subscribe
  split
  · exact h
  · cases sendErr <;> exact Inv_of_same h rfl (fun _ => rfl) h.2.2.2

theorem Inv_Unsubscribe {c : Client} (h : Inv c) (channel : String) (sendErr : Option String) :
    Inv (c.Unsubscribe channel sendErr).1 := by
  unfold Client.Unsubscribe
  split
  · exact h
  · cases sendErr <;> exact Inv_of_same h rfl (fun _ => rfl) h.2.2.2

theorem Inv_Bind {c : Client} (h : Inv c) (evt : String) : Inv (c.Bind evt).client := by
  unfold Client.Bind
  split
  · exact h
  · rename_i hlk
    obtain ⟨h1, h2, h3, h4⟩ := h
    simp only [mapInsert_of_lookup_none _ hlk]
    refine ⟨?_, ?_, ?_, h4⟩
    · rw [List.map_append, List.nodup_append]
      refine ⟨h1, by simp, ?_⟩
      intro k hk hk1
      simp only [List.map_cons, List.map_nil, List.mem_singleton] at hk1
      subst hk1
      exact (mapLookup_none_iff.mp hlk) hk
    · rw [List.map_append, List.nodup_append]
      refine ⟨h2, by simp, ?_⟩
      intro q hq hq1
      simp only [List.map_cons, List.map_nil, List.mem_singleton] at hq1
      obtain ⟨kv, hkv, hkvq⟩ := List.mem_map.mp hq
      have hlt := lt_length_of_chanOpen (h3 kv hkv)
      omega
    · intro kv hkv
      rcases List.mem_append.mp hkv with hkv | hkv
      · exact chanOpen_append _ (h3 kv hkv)
      · simp only [List.mem_singleton] at hkv
        subst hkv
        simp [chanOpen, Chan.make]

theorem Inv_Unbind {c : Client} (h : Inv c) (evt : String) : Inv (c.Unbind evt) := by
  obtain ⟨h1, h2, h3, h4⟩ := h
  refine ⟨?_, ?_, ?_, h4⟩
  · exact h1.sublist ((mapDelete_sublist c.binders evt).map Prod.fst)
  · exact h2.sublist ((mapDelete_sublist c.binders evt).map Prod.snd)
  · intro kv hkv
    exact h3 kv (mem_of_mem_mapDelete hkv)

theorem Inv_Close {c c1 : Client} (h : Inv c) (hc : c.Close = .ok c1) : Inv c1 := by
  obtain ⟨c2, hc2, _, _, hstop, _, hnil, _⟩ := Close_ok h
  rw [hc2] at hc
  simp only [Outcome.ok.injEq] at hc
  subst hc
  refine ⟨?_, ?_, ?_, ?_⟩
  · rw [hnil]; simp
  · rw [hnil]; simp
  · rw [hnil]; simp
  · omega

/-- A send that does not panic changes one channel and keeps its `closed`
flag. -/
theorem chanSend_open {chans chans1 : List Chan} {q : Nat} {e : Event}
    (h : chanSend chans q e = .ok chans1) (r : Nat) :
    chanOpen chans1 r = chanOpen chans r := by
  unfold chanSend at h
  split at h
  · simp at h
  · rename_i ch hq
    obtain ⟨ch1, hsend, hset⟩ := (Outcome.bind_eq_ok _ _ _).mp h
    simp only [Outcome.ok.injEq] at hset
    subst hset
    apply chanOpen_set_same hq
    unfold Chan.send at hsend
    split at hsend
    · simp at hsend
    · split at hsend
      · simp only [Outcome.ok.injEq] at hsend
        subst hsend
        rfl
      · simp at hsend

theorem chanSend_ne_panic_of_open {chans : List Chan} {q : Nat} (e : Event)
    (h : chanOpen chans q = true) : chanSend chans q e ≠ .panic := by
  obtain ⟨ch, hq, hc⟩ := chanOpen_iff.mp h
  unfold chanSend
  rw [hq]
  by_cases hlen : ch.buf.length < ch.cap <;> simp [Chan.send, hc, hlen, Outcome.bind]

theorem listenIter_inv {c : Client} (h : Inv c) (recv : Except String Event) :
    c.listenIter recv ≠ .panic ∧ ∀ p, c.listenIter recv = .ok p → Inv p.1 := by
  cases recv with
  | error err =>
    obtain ⟨c1, hc1, _⟩ := Close_ok h
    simp only [Client.listenIter, hc1, Outcome.bind]
    refine ⟨by simp, ?_⟩
    intro p hp
    simp only [Outcome.ok.injEq] at hp
    subst hp
    exact Inv_Close h hc1
  | ok event =>
    simp only [Client.listenIter]
    split
    · refine ⟨by simp, ?_⟩
      intro p hp
      simp only [Outcome.ok.injEq] at hp
      subst hp
      exact Inv_of_same h rfl (fun _ => rfl) h.2.2.2
    · split
      · refine ⟨by simp, ?_⟩
        intro p hp
        simp only [Outcome.ok.injEq] at hp
        subst hp
        exact h
      · split
        · refine ⟨by simp, ?_⟩
          intro p hp
          simp only [Outcome.ok.injEq] at hp
          subst hp
          exact Inv_of_same h rfl (fun _ => rfl) h.2.2.2
        · split
          · rename_i binder hlk
            have hopen := h.2.2.1 _ (mem_of_mapLookup hlk)
            constructor
            · intro hp
              rcases (Outcome.bind_eq_panic _ _).mp hp with hp | ⟨a, _, hp⟩
              · exact chanSend_ne_panic_of_open event hopen hp
              · simp at hp
            · intro p hp
              obtain ⟨chans1, hsend, hp⟩ := (Outcome.bind_eq_ok _ _ _).mp hp
              simp only [Outcome.ok.injEq] at hp
              subst hp
              exact Inv_of_same h rfl (chanSend_open hsend) h.2.2.2
          · refine ⟨by simp, ?_⟩
            intro p hp
            simp only [Outcome.ok.injEq] at hp
            subst hp
            exact h

theorem heartbeatIter_inv {c : Client} (h : Inv c) (stop : Bool) :
    c.heartbeatIter stop ≠ .panic ∧ ∀ p, c.heartbeatIter stop = .ok p → Inv p.1 := by
  have h4 := h.2.2.2
  unfold Client.heartbeatIter
  simp only []
  split
  · split
    · refine ⟨by simp, ?_⟩
      intro p hp
      simp only [Outcome.ok.injEq] at hp
      subst hp
      refine Inv_of_same h rfl (fun _ => rfl) ?_
      simp only []
      omega
    · exact ⟨by simp, by simp⟩
  · refine ⟨by simp, ?_⟩
    intro p hp
    simp only [Outcome.ok.injEq] at hp
    subst hp
    exact Inv_of_same h rfl (fun _ => rfl) h4

theorem receive_inv {c : Client} (h : Inv c) (q : Nat) :
    c.receive q ≠ .panic ∧ ∀ p, c.receive q = .ok p → Inv p.1 := by
  unfold Client.receive
  split
  · exact ⟨by simp, by simp⟩
  · rename_i ch hq
    unfold Chan.recv
    split
    · refine ⟨by simp [Outcome.bind], ?_⟩
      intro p hp
      simp only [Outcome.bind, Outcome.ok.injEq] at hp
      subst hp
      exact Inv_of_same h rfl (chanOpen_set_same hq rfl) h.2.2.2
    · split
      · refine ⟨by simp [Outcome.bind], ?_⟩
        intro p hp
        simp only [Outcome.bind, Outcome.ok.injEq] at hp
        subst hp
        exact Inv_of_same h rfl (chanOpen_set_same hq rfl) h.2.2.2
      · exact ⟨by simp [Outcome.bind], by simp [Outcome.bind]⟩

/-- No step panics on a well-formed session, and a step that completes
leaves it well formed. -/
theorem step_inv {c : Client} (h : Inv c) (op : Op) :
    c.step op ≠ .panic ∧ ∀ c1, c.step op = .ok c1 → Inv c1 := by
  cases op with
  | Subscribe channel sendErr =>
    refine ⟨by simp [Client.step], ?_⟩
    intro c1 hc1
    simp only [Client.step, Outcome.ok.injEq] at hc1
    subst hc1
    exact Inv_Subscribe h _ _
  | Unsubscribe channel sendErr =>
    refine ⟨by simp [Client.step], ?_⟩
    intro c1 hc1
    simp only [Client.step, Outcome.ok.injEq] at hc1
    subst hc1
    exact Inv_Unsubscribe h _ _
  | Bind evt =>
    refine ⟨by simp [Client.step], ?_⟩
    intro c1 hc1
    simp only [Client.step, Outcome.ok.injEq] at hc1
    subst hc1
    exact Inv_Bind h _
  | Unbind evt =>
    refine ⟨by simp [Client.step], ?_⟩
    intro c1 hc1
    simp only [Client.step, Outcome.ok.injEq] at hc1
    subst hc1
    exact Inv_Unbind h _
  | Close =>
    obtain ⟨c2, hc2, _⟩ := Close_ok h
    refine ⟨by simp [Client.step, hc2], ?_⟩
    intro c1 hc1
    exact Inv_Close h hc1
  | listen recv =>
    obtain ⟨h1, h2⟩ := listenIter_inv h recv
    simp only [Client.step]
    constructor
    · intro hp
      rcases (Outcome.bind_eq_panic _ _).mp hp with hp | ⟨a, _, hp⟩
      · exact h1 hp
      · simp at hp
    · intro c1 hc1
      obtain ⟨p, hp, hc1⟩ := (Outcome.bind_eq_ok _ _ _).mp hc1
      simp only [Outcome.ok.injEq] at hc1
      subst hc1
      exact h2 p hp
  | heartbeat stop =>
    obtain ⟨h1, h2⟩ := heartbeatIter_inv h stop
    simp only [Client.step]
    constructor
    · intro hp
      rcases (Outcome.bind_eq_panic _ _).mp hp with hp | ⟨a, _, hp⟩
      · exact h1 hp
      · simp at hp
    · intro c1 hc1
      obtain ⟨p, hp, hc1⟩ := (Outcome.bind_eq_ok _ _ _).mp hc1
      simp only [Outcome.ok.injEq] at hc1
      subst hc1
      exact h2 p hp
  | receive q =>
    obtain ⟨h1, h2⟩ := receive_inv h q
    simp only [Client.step]
    constructor
    · intro hp
      rcases (Outcome.bind_eq_panic _ _).mp hp with hp | ⟨a, _, hp⟩
      · exact h1 hp
      · simp at hp
    · intro c1 hc1
      obtain ⟨p, hp, hc1⟩ := (Outcome.bind_eq_ok _ _ _).mp hc1
      simp only [Outcome.ok.injEq] at hc1
      subst hc1
      exact h2 p hp

/-- No sequence of steps panics from a well-formed session, and the state it
ends in is well formed. -/
theorem run_inv (ops : List Op) :
    ∀ c : Client, Inv c → c.run ops ≠ .panic ∧ ∀ c1, c.run ops = .ok c1 → Inv c1 := by
  induction ops with
  | nil =>
    intro c h
    refine ⟨by simp [Client.run], ?_⟩
    intro c1 hc1
    simp only [Client.run, Outcome.ok.injEq] at hc1
    subst hc1
    exact h
  | cons op rest ih =>
    intro c h
    obtain ⟨h1, h2⟩ := step_inv h op
    simp only [Client.run]
    constructor
    · intro hp
      rcases (Outcome.bind_eq_panic _ _).mp hp with hp | ⟨a, ha, hp⟩
      · exact h1 hp
      · exact (ih a (h2 a ha)).1 hp
    · intro c1 hc1
      obtain ⟨a, ha, hc1⟩ := (Outcome.bind_eq_ok _ _ _).mp hc1
      exact (ih a (h2 a ha)).2 c1 hc1

/-! ## The dispatch loop -/

theorem mapLookup_mapInsert_self (m : List (String × Nat)) (k : String) (v : Nat) :
    mapLookup (mapInsert m k v) k = some v := by
  induction m with
  | nil => simp [mapInsert, mapLookup]
  | cons kv rest ih =>
    obtain ⟨k1, v1⟩ := kv
    by_cases hk : k1 = k
    · simp [mapInsert, mapLookup, hk]
    · simp [mapInsert, mapLookup, hk, ih]

/-- In a well-formed session a channel is bound under one name only. -/
theorem name_unique_of_Inv {c : Client} (h : Inv c) {n m : String} {q : Nat}
    (hn : mapLookup c.binders n = some q) (hm : mapLookup c.binders m = some q) : m = n := by
  have h1 := List.inj_on_of_nodup_map h.2.1 (mem_of_mapLookup hm) (mem_of_mapLookup hn) rfl
  simp only [Prod.mk.injEq] at h1
  exact h1.1

/-- An iteration of `listen` on a received frame goes on with the loop,
keeps the registry and appends the frame to the channel it is routed to, and
to no other. -/
theorem listenIter_frame {c : Client} {e : Event} {p : Client × Bool}
    (h : c.listenIter (.ok e) = .ok p) :
    p.2 = true ∧ p.1.binders = c.binders ∧
    ∀ r, p.1.chans[r]? = (c.chans[r]?).map
      (fun (ch : Chan) => { ch with buf := ch.buf ++ (if routed c.binders r e then [e] else []) }) := by
  simp only [Client.listenIter] at h
  split at h
  · rename_i h1
    simp only [Outcome.ok.injEq] at h
    subst h
    refine ⟨rfl, rfl, fun r => ?_⟩
    simp [routed, h1]
  · split at h
    · rename_i h1 h2
      simp only [Outcome.ok.injEq] at h
      subst h
      refine ⟨rfl, rfl, fun r => ?_⟩
      simp [routed, h2]
    · split at h
      · rename_i h1 h2 h3
        simp only [Outcome.ok.injEq] at h
        subst h
        refine ⟨rfl, rfl, fun r => ?_⟩
        simp [routed, h3]
      · rename_i h1 h2 h3
        split at h
        · rename_i binder hlk
          obtain ⟨chans1, hsend, hp⟩ := (Outcome.bind_eq_ok _ _ _).mp h
          simp only [Outcome.ok.injEq] at hp
          subst hp
          refine ⟨rfl, rfl, fun r => ?_⟩
          unfold chanSend at hsend
          split at hsend
          · simp at hsend
          · rename_i chb hq
            obtain ⟨ch1, hs, hset⟩ := (Outcome.bind_eq_ok _ _ _).mp hsend
            simp only [Outcome.ok.injEq] at hset
            subst hset
            have hch1 : ch1 = { chb with buf := chb.buf ++ [e] } := by
              unfold Chan.send at hs
              split at hs
              · simp at hs
              · split at hs
                · simp only [Outcome.ok.injEq] at hs
                  exact hs.symm
                · simp at hs
            have hlt : binder < c.chans.length := by
              by_contra hlt
              rw [List.getElem?_eq_none (Nat.le_of_not_lt hlt)] at hq
              simp at hq
            by_cases hr : binder = r
            · subst hr
              simp only []
              rw [List.getElem?_set, if_pos rfl, if_pos hlt, hq, hch1]
              simp [routed, h1, h2, h3, hlk]
            · simp only []
              rw [List.getElem?_set_ne hr]
              have hne : ¬ (some binder = some r) := by simpa using hr
              simp [routed, hlk, hr]
        · rename_i hlk
          simp only [Outcome.ok.injEq] at h
          subst h
          refine ⟨rfl, rfl, fun r => ?_⟩
          simp [routed, hlk]

/-- The dispatch loop keeps the registry, and each channel ends with the
frames routed to it appended in the order of their reception. -/
theorem dispatch_chans (frames : List Event) :
    ∀ (c s : Client), c.dispatch frames = .ok s →
      s.binders = c.binders ∧
      ∀ r, s.chans[r]? = (c.chans[r]?).map
        (fun (ch : Chan) => { ch with buf := ch.buf ++ frames.filter (routed c.binders r) }) := by
  induction frames with
  | nil =>
    intro c s h
    simp only [Client.dispatch, List.map_nil, Client.listen, Outcome.ok.injEq] at h
    subst h
    refine ⟨rfl, fun r => ?_⟩
    cases c.chans[r]? <;> simp
  | cons e rest ih =>
    intro c s h
    simp only [Client.dispatch, List.map_cons, Client.listen] at h
    obtain ⟨p, hp, hrest⟩ := (Outcome.bind_eq_ok _ _ _).mp h
    obtain ⟨h1, h2, h3⟩ := listenIter_frame hp
    rw [h1] at hrest
    simp only [if_true] at hrest
    obtain ⟨h4, h5⟩ := ih p.1 s hrest
    refine ⟨by rw [h4, h2], fun r => ?_⟩
    rw [h5 r, h3 r, h2]
    cases c.chans[r]? with
    | none => simp
    | some ch =>
      by_cases hr : routed c.binders r e = true
      · simp [List.filter_cons, hr]
      · simp [List.filter_cons, hr]

/-- The dispatch loop runs through frames of one bound application name as
long as the channel bound to it is open and has room for them. -/
theorem dispatch_total (n : String) (q : Nat) (frames : List Event) :
    ∀ (c : Client) (ch : Chan), n ≠ "pusher:ping" → n ≠ "pusher:pong" → n ≠ "pusher:error" →
      mapLookup c.binders n = some q → c.chans[q]? = some ch → ch.closed = false →
      (∀ e ∈ frames, e.Event = n) → ch.buf.length + frames.length ≤ ch.cap →
      ∃ s, c.dispatch frames = .ok s := by
  induction frames with
  | nil =>
    intro c ch _ _ _ _ _ _ _ _
    exact ⟨c, rfl⟩
  | cons e rest ih =>
    intro c ch h1 h2 h3 hlk hq hcl hall hroom
    have he : e.Event = n := hall e (List.mem_cons_self _ _)
    have hlt : q < c.chans.length := by
      by_contra hlt
      rw [List.getElem?_eq_none (Nat.le_of_not_lt hlt)] at hq
      simp at hq
    have hlen : ch.buf.length < ch.cap := by
      simp only [List.length_cons] at hroom
      omega
    have hstep : c.listenIter (.ok e) =
        .ok ({ c with chans := c.chans.set q { ch with buf := ch.buf ++ [e] } }, true) := by
      simp [Client.listenIter, he, h1, h2, h3, hlk, chanSend, hq, Chan.send, hcl, hlen, Outcome.bind]
    obtain ⟨s, hs⟩ := ih { c with chans := c.chans.set q { ch with buf := ch.buf ++ [e] } }
      { ch with buf := ch.buf ++ [e] } h1 h2 h3 hlk
      (by simp only []; rw [List.getElem?_set, if_pos rfl, if_pos hlt]) hcl
      (fun e1 he1 => hall e1 (List.mem_cons_of_mem _ he1))
      (by simp only [List.length_append, List.length_cons, List.length_nil] at hroom ⊢; omega)
    refine ⟨s, ?_⟩
    simp only [Client.dispatch, List.map_cons, Client.listen, hstep, Outcome.bind, if_true]
    exact hs

theorem mapLookup_append_of_some {m : List (String × Nat)} {k : String} {v : Nat}
    (more : List (String × Nat)) (h : mapLookup m k = some v) :
    mapLookup (m ++ more) k = some v := by
  induction m with
  | nil => simp [mapLookup] at h
  | cons kv rest ih =>
    obtain ⟨k1, v1⟩ := kv
    simp only [mapLookup, List.cons_append] at h ⊢
    split
    · rename_i hk
      simpa [hk] using h
    · rename_i hk
      simp only [hk, if_false] at h
      exact ih h

theorem framesNamed_cons (n : String) (op : Op) (rest : List Op) :
    framesNamed n (op :: rest) = framesNamed n [op] ++ framesNamed n rest := by
  cases op with
  | listen recv =>
    cases recv with
    | error err => simp [framesNamed]
    | ok e =>
      by_cases he : e.Event = n <;> simp [framesNamed, he]
  | _ => simp [framesNamed]

/-- A quiet step keeps the binding of an application name `n` and appends to
the channel bound to it the frame named `n` it receives, if any. -/
theorem step_quiet {c c1 : Client} {n : String} {q : Nat} {ch : Chan} {op : Op}
    (hinv : Inv c) (hping : n ≠ "pusher:ping") (hpong : n ≠ "pusher:pong")
    (herror : n ≠ "pusher:error")
    (hq : mapLookup c.binders n = some q) (hch : c.chans[q]? = some ch)
    (hquiet : op.quiet q = true) (hstep : c.step op = .ok c1) :
    mapLookup c1.binders n = some q ∧
    c1.chans[q]? = some { ch with buf := ch.buf ++ framesNamed n [op] } := by
  have hlt : q < c.chans.length := by
    by_contra hlt
    rw [List.getElem?_eq_none (Nat.le_of_not_lt hlt)] at hch
    simp at hch
  cases op with
  | Subscribe channel sendErr =>
    simp only [Client.step, Outcome.ok.injEq] at hstep
    subst hstep
    have hb : (c.Subscribe channel sendErr).1.binders = c.binders
        ∧ (c.Subscribe channel sendErr).1.chans = c.chans := by
      unfold Client.Subscribe
      split
      · exact ⟨rfl, rfl⟩
      · cases sendErr <;> exact ⟨rfl, rfl⟩
    rw [hb.1, hb.2]
    exact ⟨hq, by simp [framesNamed, hch]⟩
  | Unsubscribe channel sendErr =>
    simp only [Client.step, Outcome.ok.injEq] at hstep
    subst hstep
    have hb : (c.Unsubscribe channel sendErr).1.binders = c.binders
        ∧ (c.Unsubscribe channel sendErr).1.chans = c.chans := by
      unfold Client.Unsubscribe
      split
      · exact ⟨rfl, rfl⟩
      · cases sendErr <;> exact ⟨rfl, rfl⟩
    rw [hb.1, hb.2]
    exact ⟨hq, by simp [framesNamed, hch]⟩
  | Bind evt =>
    simp only [Client.step, Outcome.ok.injEq] at hstep
    subst hstep
    unfold Client.Bind
    split
    · exact ⟨hq, by simp [framesNamed, hch]⟩
    · rename_i hlk
      simp only [mapInsert_of_lookup_none _ hlk]
      refine ⟨mapLookup_append_of_some _ hq, ?_⟩
      rw [List.getElem?_append_left hlt]
      simp [framesNamed, hch]
  | Unbind evt => simp [Op.quiet] at hquiet
  | Close => simp [Op.quiet] at hquiet
  | listen recv =>
    cases recv with
    | error err => simp [Op.quiet] at hquiet
    | ok e =>
      simp only [Client.step] at hstep
      obtain ⟨p, hp, hc1⟩ := (Outcome.bind_eq_ok _ _ _).mp hstep
      simp only [Outcome.ok.injEq] at hc1
      subst hc1
      obtain ⟨_, hb, hchans⟩ := listenIter_frame hp
      refine ⟨by rw [hb]; exact hq, ?_⟩
      rw [hchans q, hch]
      by_cases he : e.Event = n
      · simp [framesNamed, routed, he, hping, hpong, herror, hq]
      · have hne : ¬ (mapLookup c.binders e.Event = some q) :=
          fun h => he (name_unique_of_Inv hinv hq h)
        simp [framesNamed, routed, he, hne]
  | heartbeat stop =>
    simp only [Client.step] at hstep
    obtain ⟨p, hp, hc1⟩ := (Outcome.bind_eq_ok _ _ _).mp hstep
    simp only [Outcome.ok.injEq] at hc1
    subst hc1
    have hb : p.1.binders = c.binders ∧ p.1.chans = c.chans := by
      unfold Client.heartbeatIter at hp
      simp only [] at hp
      split at hp
      · split at hp
        · simp only [Outcome.ok.injEq] at hp
          subst hp
          exact ⟨rfl, rfl⟩
        · simp at hp
      · simp only [Outcome.ok.injEq] at hp
        subst hp
        exact ⟨rfl, rfl⟩
    rw [hb.1, hb.2]
    exact ⟨hq, by simp [framesNamed, hch]⟩
  | receive r =>
    have hr : r ≠ q := by simpa [Op.quiet] using hquiet
    simp only [Client.step] at hstep
    obtain ⟨p, hp, hc1⟩ := (Outcome.bind_eq_ok _ _ _).mp hstep
    simp only [Outcome.ok.injEq] at hc1
    subst hc1
    unfold Client.receive at hp
    split at hp
    · simp at hp
    · obtain ⟨r1, _, hp⟩ := (Outcome.bind_eq_ok _ _ _).mp hp
      simp only [Outcome.ok.injEq] at hp
      subst hp
      simp only []
      rw [List.getElem?_set_ne hr]
      exact ⟨hq, by simp [framesNamed, hch]⟩

/-- Over a run of quiet steps the channel bound to an application name `n`
receives the frames named `n`, in the order of their reception. -/
theorem run_quiet (n : String) (q : Nat) (ops : List Op) :
    ∀ (c s : Client) (ch : Chan), Inv c → n ≠ "pusher:ping" → n ≠ "pusher:pong" →
      n ≠ "pusher:error" → mapLookup c.binders n = some q → c.chans[q]? = some ch →
      (∀ op ∈ ops, op.quiet q = true) → c.run ops = .ok s →
      mapLookup s.binders n = some q ∧
      s.chans[q]? = some { ch with buf := ch.buf ++ framesNamed n ops } := by
  induction ops with
  | nil =>
    intro c s ch _ _ _ _ hq hch _ hrun
    simp only [Client.run, Outcome.ok.injEq] at hrun
    subst hrun
    exact ⟨hq, by simp [framesNamed, hch]⟩
  | cons op rest ih =>
    intro c s ch hinv h1 h2 h3 hq hch hquiet hrun
    simp only [Client.run] at hrun
    obtain ⟨c1, hstep, hrest⟩ := (Outcome.bind_eq_ok _ _ _).mp hrun
    obtain ⟨hq1, hch1⟩ :=
      step_quiet hinv h1 h2 h3 hq hch (hquiet op (List.mem_cons_self _ _)) hstep
    obtain ⟨hq2, hch2⟩ := ih c1 s _ ((step_inv hinv op).2 c1 hstep) h1 h2 h3 hq1 hch1
      (fun o ho => hquiet o (List.mem_cons_of_mem _ ho)) hrest
    refine ⟨hq2, ?_⟩
    rw [hch2, framesNamed_cons n op rest]
    simp [List.append_assoc]

theorem Bind_of_bound {c : Client} {evt : String} {q : Nat}
    (h : mapLookup c.binders evt = some q) :
    c.Bind evt = { client := c, dataChannel := none,
                   err := some ("Event " ++ evt ++ " already binded") } := by
  simp [Client.Bind, h]

/-! ## Progress of the dispatch loop -/

/-- An iteration of `listen` on a frame with one of the three control names
completes, goes on with the loop and touches neither the registry nor any
channel. -/
theorem listenIter_control (c : Client) (e : Event)
    (h : e.Event = "pusher:ping" ∨ e.Event = "pusher:pong" ∨ e.Event = "pusher:error") :
    ∃ c1, c.listenIter (.ok e) = .ok (c1, true) ∧ c1.binders = c.binders ∧
      c1.chans = c.chans := by
  by_cases h1 : e.Event = "pusher:ping"
  · exact ⟨{ c with ws := c.ws.Send pongFrame }, by simp [Client.listenIter, h1], rfl, rfl⟩
  · by_cases h2 : e.Event = "pusher:pong"
    · exact ⟨c, by simp [Client.listenIter, h2], rfl, rfl⟩
    · have h3 : e.Event = "pusher:error" := by
        rcases h with h | h | h
        · exact absurd h h1
        · exact absurd h h2
        · exact h
      exact ⟨{ c with logged := c.logged ++ ["Event error recieved:  " ++ e.Data] },
        by simp [Client.listenIter, h3], rfl, rfl⟩

/-- On a well-formed session an iteration of `listen` completes as soon as
the channel the frame is routed to, if any, has room. -/
theorem listenIter_progress {c : Client} (hinv : Inv c) (e : Event)
    (hroom : ∀ r ch, routed c.binders r e = true → c.chans[r]? = some ch →
      ch.buf.length < ch.cap) :
    ∃ p, c.listenIter (.ok e) = .ok p := by
  by_cases hctl : e.Event = "pusher:ping" ∨ e.Event = "pusher:pong" ∨ e.Event = "pusher:error"
  · obtain ⟨c1, hc1, _⟩ := listenIter_control c e hctl
    exact ⟨_, hc1⟩
  · simp only [not_or] at hctl
    obtain ⟨h1, h2, h3⟩ := hctl
    cases hlk : mapLookup c.binders e.Event with
    | none => exact ⟨(c, true), by simp [Client.listenIter, h1, h2, h3, hlk]⟩
    | some binder =>
      obtain ⟨ch, hch, hcl⟩ := chanOpen_iff.mp (hinv.2.2.1 _ (mem_of_mapLookup hlk))
      have hlen : ch.buf.length < ch.cap :=
        hroom binder ch (by simp [routed, h1, h2, h3, hlk]) hch
      exact ⟨({ c with chans := c.chans.set binder { ch with buf := ch.buf ++ [e] } }, true),
        by simp [Client.listenIter, h1, h2, h3, hlk, chanSend, hch, Chan.send, hcl, hlen,
          Outcome.bind]⟩

/-- The dispatch loop keeps a session well formed. -/
theorem dispatch_inv (frames : List Event) :
    ∀ (c s : Client), Inv c → c.dispatch frames = .ok s → Inv s := by
  induction frames with
  | nil =>
    intro c s hinv h
    simp only [Client.dispatch, List.map_nil, Client.listen, Outcome.ok.injEq] at h
    subst h
    exact hinv
  | cons e rest ih =>
    intro c s hinv h
    simp only [Client.dispatch, List.map_cons, Client.listen] at h
    obtain ⟨p, hp, hrest⟩ := (Outcome.bind_eq_ok _ _ _).mp h
    obtain ⟨h1, _, _⟩ := listenIter_frame hp
    rw [h1] at hrest
    simp only [if_true] at hrest
    exact ih p.1 s ((listenIter_inv hinv (.ok e)).2 p hp) hrest

/-- On a well-formed session the dispatch loop runs through every sequence of
frames for which each channel that frames are routed to has room for them. -/
theorem dispatch_progress (frames : List Event) :
    ∀ c : Client, Inv c →
      (∀ r ch, c.chans[r]? = some ch → frames.filter (routed c.binders r) ≠ [] →
        ch.buf.length + (frames.filter (routed c.binders r)).length ≤ ch.cap) →
      ∃ s, c.dispatch frames = .ok s := by
  induction frames with
  | nil =>
    intro c _ _
    exact ⟨c, rfl⟩
  | cons e rest ih =>
    intro c hinv hroom
    obtain ⟨p, hp⟩ := listenIter_progress hinv e (by
      intro r ch hr hch
      have h := hroom r ch hch (by simp [List.filter_cons, hr])
      simp only [List.filter_cons, hr, if_true, List.length_cons] at h
      omega)
    obtain ⟨h1, h2, h3⟩ := listenIter_frame hp
    obtain ⟨s, hs⟩ := ih p.1 ((listenIter_inv hinv (.ok e)).2 p hp) (by
      intro r ch1 hch1 hne
      rw [h2] at hne ⊢
      rw [h3 r] at hch1
      cases hch0 : c.chans[r]? with
      | none => simp [hch0] at hch1
      | some ch0 =>
        simp only [hch0, Option.map_some', Option.some.injEq] at hch1
        subst hch1
        have h := hroom r ch0 hch0 (by
          by_cases hr : routed c.binders r e = true
          · simp [List.filter_cons, hr]
          · simpa [List.filter_cons, hr] using hne)
        by_cases hr : routed c.binders r e = true
        · simp only [List.filter_cons, hr, if_true, List.length_cons] at h
          simp only [hr, if_true, List.length_append, List.length_cons, List.length_nil]
          omega
        · simp only [List.filter_cons, hr] at h
          simp only [hr, List.append_nil]
          simpa using h)
    refine ⟨s, ?_⟩
    simp only [Client.dispatch, List.map_cons, Client.listen, hp, Outcome.bind, h1, if_true]
    exact hs

/-- The dispatch loop over a sequence of frames followed by another is the
loop over the first, then over the second. -/
theorem dispatch_append (a b : List Event) :
    ∀ c : Client, c.dispatch (a ++ b) = (c.dispatch a).bind (fun s => s.dispatch b) := by
  induction a with
  | nil =>
    intro c
    simp [Client.dispatch, Client.listen, Outcome.bind]
  | cons e rest ih =>
    intro c
    simp only [Client.dispatch, List.cons_append, List.map_cons, Client.listen]
    cases hp : c.listenIter (.ok e) with
    | panic => simp [Outcome.bind]
    | blocked => simp [Outcome.bind]
    | ok p =>
      obtain ⟨h1, _, _⟩ := listenIter_frame hp
      simp only [Outcome.bind, h1, if_true]
      exact ih p.1

/-! ## The registry of subscriptions in reachable states -/

/-- A step keeps the registry of subscriptions free of duplicates. -/
theorem step_registry {c c1 : Client} (hinv : Inv c)
    (hnd : c.subscribedChannels.channels.Nodup) (op : Op) (hstep : c.step op = .ok c1) :
    c1.subscribedChannels.channels.Nodup := by
  cases op with
  | Subscribe channel sendErr =>
    simp only [Client.step, Outcome.ok.injEq] at hstep
    subst hstep
    unfold Client.Subscribe
    split
    · exact hnd
    · rename_i hc
      cases sendErr with
      | some e => exact hnd
      | none =>
        have hc1 : c.subscribedChannels.contains channel = false := by simpa using hc
        have hmem : channel ∉ c.subscribedChannels.channels := by
          simpa [subscribedChannels.contains] using hc1
        simp only [subscribedChannels.add, hc1]
        simp only [Bool.false_eq_true, if_false]
        rw [List.nodup_append]
        refine ⟨hnd, by simp, ?_⟩
        intro a ha ha1
        simp only [List.mem_singleton] at ha1
        subst ha1
        exact hmem ha
  | Unsubscribe channel sendErr =>
    simp only [Client.step, Outcome.ok.injEq] at hstep
    subst hstep
    unfold Client.Unsubscribe
    split
    · exact hnd
    · cases sendErr with
      | some e => exact hnd
      | none => exact hnd.sublist (List.filter_sublist _)
  | Bind evt =>
    simp only [Client.step, Outcome.ok.injEq] at hstep
    subst hstep
    unfold Client.Bind
    split <;> exact hnd
  | Unbind evt =>
    simp only [Client.step, Outcome.ok.injEq] at hstep
    subst hstep
    exact hnd
  | Close =>
    obtain ⟨c2, hc2, _, hsub, _⟩ := Close_ok hinv
    simp only [Client.step, hc2, Outcome.ok.injEq] at hstep
    subst hstep
    rw [hsub]
    exact hnd
  | listen recv =>
    simp only [Client.step] at hstep
    obtain ⟨p, hp, hc1⟩ := (Outcome.bind_eq_ok _ _ _).mp hstep
    simp only [Outcome.ok.injEq] at hc1
    subst hc1
    cases recv with
    | error err =>
      obtain ⟨c2, hc2, _, hsub, _⟩ := Close_ok hinv
      simp only [Client.listenIter, hc2, Outcome.bind, Outcome.ok.injEq] at hp
      subst hp
      rw [hsub]
      exact hnd
    | ok e =>
      have hsub : p.1.subscribedChannels = c.subscribedChannels := by
        simp only [Client.listenIter] at hp
        split at hp
        · simp only [Outcome.ok.injEq] at hp
          subst hp
          rfl
        · split at hp
          · simp only [Outcome.ok.injEq] at hp
            subst hp
            rfl
          · split at hp
            · simp only [Outcome.ok.injEq] at hp
              subst hp
              rfl
            · split at hp
              · obtain ⟨chans1, _, hp⟩ := (Outcome.bind_eq_ok _ _ _).mp hp
                simp only [Outcome.ok.injEq] at hp
                subst hp
                rfl
              · simp only [Outcome.ok.injEq] at hp
                subst hp
                rfl
      rw [hsub]
      exact hnd
  | heartbeat stop =>
    simp only [Client.step] at hstep
    obtain ⟨p, hp, hc1⟩ := (Outcome.bind_eq_ok _ _ _).mp hstep
    simp only [Outcome.ok.injEq] at hc1
    subst hc1
    unfold Client.heartbeatIter at hp
    simp only [] at hp
    split at hp
    · split at hp
      · simp only [Outcome.ok.injEq] at hp
        subst hp
        exact hnd
      · simp at hp
    · simp only [Outcome.ok.injEq] at hp
      subst hp
      exact hnd
  | receive r =>
    simp only [Client.step] at hstep
    obtain ⟨p, hp, hc1⟩ := (Outcome.bind_eq_ok _ _ _).mp hstep
    simp only [Outcome.ok.injEq] at hc1
    subst hc1
    unfold Client.receive at hp
    split at hp
    · simp at hp
    · obtain ⟨r1, _, hp⟩ := (Outcome.bind_eq_ok _ _ _).mp hp
      simp only [Outcome.ok.injEq] at hp
      subst hp
      exact hnd

/-- In a state reached by a run from a well-formed session whose registry of
subscriptions has no duplicates, that registry has no duplicates. -/
theorem run_registry (ops : List Op) :
    ∀ (c s : Client), Inv c → c.subscribedChannels.channels.Nodup → c.run ops = .ok s →
      s.subscribedChannels.channels.Nodup := by
  induction ops with
  | nil =>
    intro c s _ hnd hrun
    simp only [Client.run, Outcome.ok.injEq] at hrun
    subst hrun
    exact hnd
  | cons op rest ih =>
    intro c s hinv hnd hrun
    simp only [Client.run] at hrun
    obtain ⟨c1, hstep, hrest⟩ := (Outcome.bind_eq_ok _ _ _).mp hrun
    exact ih c1 s ((step_inv hinv op).2 c1 hstep) (step_registry hinv hnd op hstep) hrest

/-! ## The claims -/

/-- C9: when the dispatch loop receives a frame named `pusher:ping`, in any
state and with any payload, the iteration sends exactly one frame, the pong
control frame, goes on with the loop, and changes neither the registry of
binders nor any channel of the heap, whatever is bound under `pusher:ping`. -/
theorem C9_ping_answered_by_one_pong (c : Client) (data : String) :
    ∃ c1, c.listenIter (.ok { Event := "pusher:ping", Data := data }) = .ok (c1, true) ∧
      c1.ws.sent = c.ws.sent ++ ["\x7b\"event\":\"pusher:pong\",\"data\":\"\x7b\x7d\"\x7d"] ∧
      c1.binders = c.binders ∧ c1.chans = c.chans ∧
      c1 = { c with ws := c.ws.Send pongFrame } := by
  refine ⟨{ c with ws := c.ws.Send pongFrame }, ?_, rfl, rfl, rfl, rfl⟩
  simp [Client.listenIter]

/-- C4: `Unsubscribe` of a channel that the registry does not contain returns
the error "Client isn't subscrived to <channel>" and leaves the whole state
as it was: no frame is sent and the registry is unchanged. -/
theorem C4_unsubscribe_absent (c : Client) (channel : String) (sendErr : Option String)
    (h : c.subscribedChannels.contains channel = false) :
    c.Unsubscribe channel sendErr = (c, some ("Client isn\x27t subscrived to " ++ channel)) ∧
    (c.Unsubscribe channel sendErr).1.ws.sent = c.ws.sent ∧
    (c.Unsubscribe channel sendErr).1.subscribedChannels = c.subscribedChannels := by
  have h1 : c.Unsubscribe channel sendErr
      = (c, some ("Client isn\x27t subscrived to " ++ channel)) := by
    simp [Client.Unsubscribe, h]
  rw [h1]
  exact ⟨rfl, rfl, rfl⟩

/-- C4 on a new session, where no channel was ever subscribed. -/
theorem C4_unsubscribe_absent_witness :
    (pClient ws0).subscribedChannels.contains "news" = false ∧
    (pClient ws0).Unsubscribe "news" none
      = (pClient ws0, some "Client isn\x27t subscrived to news") :=
  ⟨by decide, (C4_unsubscribe_absent (pClient ws0) "news" none (by decide)).1⟩

/-- C7: when the transport send of `Subscribe` or of `Unsubscribe` returns an
error, the registry of subscriptions is unchanged; if the call reached the
send (the channel was absent for `Subscribe`, present for `Unsubscribe`) it
returns that same error and changes nothing but the log of sent frames.
Whenever either call changes the registry, its send returned no error. -/
theorem C7_send_failure_keeps_registry (c : Client) (channel : String) (e : String) :
    (c.Subscribe channel (some e)).1.subscribedChannels = c.subscribedChannels ∧
    (c.Unsubscribe channel (some e)).1.subscribedChannels = c.subscribedChannels ∧
    (c.subscribedChannels.contains channel = false →
      c.Subscribe channel (some e)
        = ({ c with ws := c.ws.Send (subscribeFrame channel) }, some e)) ∧
    (c.subscribedChannels.contains channel = true →
      c.Unsubscribe channel (some e)
        = ({ c with ws := c.ws.Send (unsubscribeFrame channel) }, some e)) ∧
    (∀ sendErr, (c.Subscribe channel sendErr).1.subscribedChannels ≠ c.subscribedChannels →
      sendErr = none) ∧
    (∀ sendErr, (c.Unsubscribe channel sendErr).1.subscribedChannels ≠ c.subscribedChannels →
      sendErr = none) := by
  refine ⟨?_, ?_, ?_, ?_, ?_, ?_⟩
  · unfold Client.Subscribe
    split <;> rfl
  · unfold Client.Unsubscribe
    split <;> rfl
  · intro h
    simp [Client.Subscribe, h]
  · intro h
    simp [Client.Unsubscribe, h]
  · intro sendErr h
    cases sendErr with
    | none => rfl
    | some e1 =>
      exfalso
      apply h
      unfold Client.Subscribe
      split <;> rfl
  · intro sendErr h
    cases sendErr with
    | none => rfl
    | some e1 =>
      exfalso
      apply h
      unfold Client.Unsubscribe
      split <;> rfl

/-- C7 on a new session: a `Subscribe` whose send fails with "EOF" returns
"EOF" and records nothing. -/
theorem C7_send_failure_keeps_registry_witness :
    (pClient ws0).subscribedChannels.contains "news" = false ∧
    (pClient ws0).Subscribe "news" (some "EOF")
      = ({ pClient ws0 with ws := ws0.Send (subscribeFrame "news") }, some "EOF") :=
  ⟨by decide, (C7_send_failure_keeps_registry (pClient ws0) "news" "EOF").2.2.1 (by decide)⟩

/-- C3, counterexample: on a new session a `Subscribe("news")` whose send
fails with "EOF" returns "EOF" and records nothing, and the `Subscribe("news")`
that follows it immediately returns no error, sends the subscribe frame a
second time and adds the channel to the registry. -/
theorem C3_failed_send_then_subscribe_again :
    (pClient ws0).Subscribe "news" (some "EOF")
      = ({ pClient ws0 with ws := { sent := [subscribeFrame "news"], closed := false } },
          some "EOF") ∧
    ((pClient ws0).Subscribe "news" (some "EOF")).1.Subscribe "news" none
      = ({ pClient ws0 with
            ws := { sent := [subscribeFrame "news", subscribeFrame "news"], closed := false },
            subscribedChannels := { channels := ["news"] } },
          none) := by
  decide

/-- C3, amended: in every state reachable from a new session, after a
`Subscribe` of a channel whose transport send did not fail (the channel was
already subscribed, so that no send was made, or the send returned no
error), a second `Subscribe` of the same channel returns the error
"Channel <channel> already subscribed" and leaves the whole state as it was:
no frame is sent, the registry is unchanged, and the channel occurs in it
exactly once. -/
theorem C3_second_subscribe_rejected (ws : Conn) (ops : List Op) (c : Client)
    (channel : String) (sendErr1 sendErr2 : Option String)
    (hreach : (pClient ws).run ops = .ok c)
    (hsend : c.subscribedChannels.contains channel = true ∨ sendErr1 = none) :
    (c.Subscribe channel sendErr1).1.Subscribe channel sendErr2
      = ((c.Subscribe channel sendErr1).1,
          some ("Channel " ++ channel ++ " already subscribed")) ∧
    ((c.Subscribe channel sendErr1).1.Subscribe channel sendErr2).1.ws.sent
      = (c.Subscribe channel sendErr1).1.ws.sent ∧
    ((c.Subscribe channel sendErr1).1.Subscribe channel sendErr2).1.subscribedChannels
      = (c.Subscribe channel sendErr1).1.subscribedChannels ∧
    (c.Subscribe channel sendErr1).1.subscribedChannels.channels.count channel = 1 := by
  have hnd : c.subscribedChannels.channels.Nodup :=
    run_registry ops (pClient ws) c (Inv_pClient ws) (by simp [pClient]) hreach
  have hmain : (c.Subscribe channel sendErr1).1.Subscribe channel sendErr2
        = ((c.Subscribe channel sendErr1).1,
            some ("Channel " ++ channel ++ " already subscribed")) ∧
      (c.Subscribe channel sendErr1).1.subscribedChannels.channels.count channel = 1 := by
    by_cases hc : c.subscribedChannels.contains channel = true
    · have hstate : c.Subscribe channel sendErr1
          = (c, some ("Channel " ++ channel ++ " already subscribed")) := by
        simp [Client.Subscribe, hc]
      rw [hstate]
      refine ⟨by simp [Client.Subscribe, hc], ?_⟩
      have hmem : channel ∈ c.subscribedChannels.channels := by
        simpa [subscribedChannels.contains] using hc
      exact List.count_eq_one_of_mem hnd hmem
    · have hc1 : c.subscribedChannels.contains channel = false := by simpa using hc
      have hnone : sendErr1 = none := by
        rcases hsend with h | h
        · exact absurd h hc
        · exact h
      subst hnone
      have hmem : channel ∉ c.subscribedChannels.channels := by
        simpa [subscribedChannels.contains] using hc1
      have hstate : c.Subscribe channel none
          = ({ c with ws := c.ws.Send (subscribeFrame channel),
                      subscribedChannels :=
                        { channels := c.subscribedChannels.channels ++ [channel] } }, none) := by
        simp [Client.Subscribe, hc1, subscribedChannels.add]
      rw [hstate]
      constructor
      · simp [Client.Subscribe, subscribedChannels.contains]
      · simp only [List.count_append]
        rw [List.count_eq_zero_of_not_mem hmem]
        simp
  refine ⟨hmain.1, ?_, ?_, hmain.2⟩
  · rw [hmain.1]
  · rw [hmain.1]

/-- C3, amended, on a new session and a first send that succeeds. -/
theorem C3_second_subscribe_rejected_witness :
    (pClient ws0).run [] = .ok (pClient ws0) ∧
    ((pClient ws0).Subscribe "news" none).1.Subscribe "news" none
      = (((pClient ws0).Subscribe "news" none).1, some "Channel news already subscribed") ∧
    ((pClient ws0).Subscribe "news" none).1.ws.sent = [subscribeFrame "news"] ∧
    ((pClient ws0).Subscribe "news" none).1.subscribedChannels.channels.count "news" = 1 :=
  ⟨by decide,
    (C3_second_subscribe_rejected ws0 [] (pClient ws0) "news" none none (by decide)
      (Or.inr rfl)).1,
    by decide,
    (C3_second_subscribe_rejected ws0 [] (pClient ws0) "news" none none (by decide)
      (Or.inr rfl)).2.2.2⟩

/-- C2: a second `Bind` of the same name returns the error
"Event <evt> already binded" with a nil channel and leaves the whole state,
the registry included, as the first call left it.  When the first call
succeeded, the name maps to the channel it returned, and the dispatch loop,
on any frames, keeps this mapping and appends no frame of that name to any
other channel of the heap. -/
theorem C2_second_bind_rejected (c : Client) (evt : String) :
    (c.Bind evt).client.Bind evt
      = { client := (c.Bind evt).client, dataChannel := none,
          err := some ("Event " ++ evt ++ " already binded") } ∧
    ((c.Bind evt).err = none →
      ∃ q, (c.Bind evt).dataChannel = some q ∧
        mapLookup (c.Bind evt).client.binders evt = some q ∧
        ∀ frames s, (c.Bind evt).client.dispatch frames = .ok s →
          mapLookup s.binders evt = some q ∧
          ∀ r, r ≠ q → ∃ added, (∀ e ∈ added, e.Event ≠ evt) ∧
            s.chans[r]? = ((c.Bind evt).client.chans[r]?).map
              (fun (ch : Chan) => { ch with buf := ch.buf ++ added })) := by
  have hbound : ∃ q, mapLookup (c.Bind evt).client.binders evt = some q := by
    unfold Client.Bind
    split
    · rename_i q hq
      exact ⟨q, hq⟩
    · exact ⟨_, mapLookup_mapInsert_self _ _ _⟩
  obtain ⟨q0, hq0⟩ := hbound
  constructor
  · exact Bind_of_bound hq0
  · intro herr
    have hnone : mapLookup c.binders evt = none := by
      unfold Client.Bind at herr
      split at herr
      · simp at herr
      · rename_i hlk
        exact hlk
    have hres : c.Bind evt
        = { client := { c with chans := c.chans ++ [Chan.make EVENT_CHANNEL_BUFF_SIZE],
                               binders := mapInsert c.binders evt c.chans.length },
            dataChannel := some c.chans.length, err := none } := by
      simp [Client.Bind, hnone]
    rw [hres]
    refine ⟨c.chans.length, rfl, mapLookup_mapInsert_self _ _ _, ?_⟩
    intro frames s hrun
    obtain ⟨hb, hch⟩ := dispatch_chans frames _ s hrun
    refine ⟨by rw [hb]; exact mapLookup_mapInsert_self _ _ _, ?_⟩
    intro r hr
    refine ⟨frames.filter (routed (mapInsert c.binders evt c.chans.length) r), ?_, hch r⟩
    intro e he hname
    have hrouted := (List.mem_filter.mp he).2
    simp only [routed, hname, mapLookup_mapInsert_self, Bool.and_eq_true, beq_iff_eq,
      Option.some.injEq] at hrouted
    exact hr hrouted.2.symm

/-- C2 on a new session: the first `Bind` succeeds and returns the channel
value 0. -/
theorem C2_second_bind_rejected_witness :
    ((pClient ws0).Bind "foo").err = none ∧
    ∃ q, ((pClient ws0).Bind "foo").dataChannel = some q ∧
      mapLookup ((pClient ws0).Bind "foo").client.binders "foo" = some q ∧
      ∀ frames s, ((pClient ws0).Bind "foo").client.dispatch frames = .ok s →
        mapLookup s.binders "foo" = some q ∧
        ∀ r, r ≠ q → ∃ added, (∀ e ∈ added, e.Event ≠ "foo") ∧
          s.chans[r]? = (((pClient ws0).Bind "foo").client.chans[r]?).map
            (fun (ch : Chan) => { ch with buf := ch.buf ++ added }) :=
  ⟨by decide, (C2_second_bind_rejected (pClient ws0) "foo").2 (by decide)⟩

/-- C1, counterexample: a queue can be bound under the control name
`pusher:pong`, and a frame of that name received by the dispatch loop is not
appended to it: the loop leaves the state, with the empty queue, as it was. -/
theorem C1_control_frame_not_delivered :
    (pClient ws0).run [Op.Bind "pusher:pong"] = .ok ((pClient ws0).Bind "pusher:pong").client ∧
    ((pClient ws0).Bind "pusher:pong").dataChannel = some 0 ∧
    mapLookup ((pClient ws0).Bind "pusher:pong").client.binders "pusher:pong" = some 0 ∧
    ((pClient ws0).Bind "pusher:pong").client.chans[0]?
      = some { buf := [], cap := 1000, closed := false } ∧
    ((pClient ws0).Bind "pusher:pong").client.dispatch
        [{ Event := "pusher:pong", Data := "x" }]
      = .ok ((pClient ws0).Bind "pusher:pong").client := by
  decide

/-- C1, amended: in every state `c` reachable from a new session, for every
name `n` other than `pusher:ping`, `pusher:pong` and `pusher:error` that is
bound to a channel `q`:
(1) a run of the dispatch loop over received frames ends with the frames
named `n` appended to the buffer of `q` in the order of their reception, none
dropped, duplicated or reordered, and nothing else appended;
(2) after any frames the loop ran through, a further frame named `n` is
dispatched and appended as soon as `q` is not full;
(3) the loop runs through frames named `n` that `q` has room for;
(4) the same order holds when the iterations of `listen` are interleaved with
other steps, none of them an `Unbind`, a `Close` or a caller taking a value
out of `q`.
Moreover (5) the loop runs through every sequence of frames for which each
channel that frames are routed to has room for them, frames of unbound names
included; (6) an iteration on a frame with one of the three control names
completes and changes neither the registry nor any channel, whatever is
bound under that name; (7) what a run of the loop appends to any channel is
a subsequence of the frames that holds no frame with a control name. -/
theorem C1_dispatch_order (ws : Conn) (ops : List Op) (c : Client)
    (hreach : (pClient ws).run ops = .ok c) :
    (∀ (n : String) (q : Nat) (ch : Chan),
      n ≠ "pusher:ping" → n ≠ "pusher:pong" → n ≠ "pusher:error" →
      mapLookup c.binders n = some q → c.chans[q]? = some ch →
      (∀ frames s, c.dispatch frames = .ok s →
        s.chans[q]? = some { ch with buf := ch.buf ++ frames.filter (fun e => e.Event = n) }) ∧
      (∀ done e s1, c.dispatch done = .ok s1 → e.Event = n →
        ch.buf.length + (done.filter (fun e => e.Event = n)).length < ch.cap →
        ∃ s, c.dispatch (done ++ [e]) = .ok s ∧
          s.chans[q]? = some
            { ch with buf := ch.buf ++ (done.filter (fun e => e.Event = n) ++ [e]) }) ∧
      (∀ frames, (∀ e ∈ frames, e.Event = n) → ch.buf.length + frames.length ≤ ch.cap →
        ∃ s, c.dispatch frames = .ok s ∧
          s.chans[q]? = some { ch with buf := ch.buf ++ frames }) ∧
      (∀ steps s, (∀ op ∈ steps, op.quiet q = true) → c.run steps = .ok s →
        mapLookup s.binders n = some q ∧
        s.chans[q]? = some { ch with buf := ch.buf ++ framesNamed n steps })) ∧
    (∀ frames,
      (∀ r ch, c.chans[r]? = some ch → frames.filter (routed c.binders r) ≠ [] →
        ch.buf.length + (frames.filter (routed c.binders r)).length ≤ ch.cap) →
      ∃ s, c.dispatch frames = .ok s) ∧
    (∀ e : Event,
      e.Event = "pusher:ping" ∨ e.Event = "pusher:pong" ∨ e.Event = "pusher:error" →
      ∃ c1, c.listenIter (.ok e) = .ok (c1, true) ∧ c1.binders = c.binders ∧
        c1.chans = c.chans) ∧
    (∀ (frames : List Event) (s : Client), c.dispatch frames = .ok s →
      ∀ r : Nat, ∃ added : List Event, added.Sublist frames ∧
      (∀ e ∈ added, e.Event ≠ "pusher:ping" ∧ e.Event ≠ "pusher:pong" ∧
        e.Event ≠ "pusher:error") ∧
      s.chans[r]? = (c.chans[r]?).map (fun (ch : Chan) => { ch with buf := ch.buf ++ added })) := by
  have hinv : Inv c := (run_inv ops (pClient ws) (Inv_pClient ws)).2 c hreach
  refine ⟨?_, fun frames hroom => dispatch_progress frames c hinv hroom,
    fun e he => listenIter_control c e he, ?_⟩
  · intro n q ch hping hpong herror hq hch
    have hfilter : ∀ frames : List Event, frames.filter (routed c.binders q)
        = frames.filter (fun e => decide (e.Event = n)) := by
      intro frames
      apply List.filter_congr
      intro e _
      by_cases he : e.Event = n
      · simp [routed, he, hping, hpong, herror, hq]
      · have hne : ¬ (mapLookup c.binders e.Event = some q) :=
          fun h => he (name_unique_of_Inv hinv hq h)
        simp [routed, he, hne]
    have hfirst : ∀ frames s, c.dispatch frames = .ok s →
        s.chans[q]? = some { ch with buf := ch.buf ++ frames.filter (fun e => e.Event = n) } := by
      intro frames s hs
      rw [(dispatch_chans frames c s hs).2 q, hch, hfilter]
      rfl
    have hopen : ch.closed = false := by
      obtain ⟨ch1, h1, h2⟩ := chanOpen_iff.mp (hinv.2.2.1 _ (mem_of_mapLookup hq))
      rw [hch] at h1
      simp only [Option.some.injEq] at h1
      rw [h1]
      exact h2
    refine ⟨hfirst, ?_, ?_, fun steps s hquiet hrun =>
      run_quiet n q steps c s ch hinv hping hpong herror hq hch hquiet hrun⟩
    · intro done e s1 hdone he hroom
      have hq1 : mapLookup s1.binders n = some q := by
        rw [(dispatch_chans done c s1 hdone).1]
        exact hq
      obtain ⟨s, hs⟩ := dispatch_total n q [e] s1 _ hping hpong herror hq1
        (hfirst done s1 hdone) hopen (by simpa using he)
        (by simp only [List.length_append, List.length_cons, List.length_nil]; omega)
      have hall : c.dispatch (done ++ [e]) = .ok s := by
        rw [dispatch_append, hdone]
        exact hs
      refine ⟨s, hall, ?_⟩
      rw [hfirst (done ++ [e]) s hall]
      simp [List.filter_append, he]
    · intro frames hall hroom
      obtain ⟨s, hs⟩ := dispatch_total n q frames c ch hping hpong herror hq hch hopen hall hroom
      refine ⟨s, hs, ?_⟩
      rw [hfirst frames s hs]
      have hall2 : frames.filter (fun e => decide (e.Event = n)) = frames := by
        apply List.filter_eq_self.mpr
        intro e he
        simp [hall e he]
      rw [hall2]
  · intro frames s hs r
    refine ⟨frames.filter (routed c.binders r), List.filter_sublist _, ?_,
      (dispatch_chans frames c s hs).2 r⟩
    intro e he
    have hrouted := (List.mem_filter.mp he).2
    simp only [routed, Bool.and_eq_true, bne_iff_ne, ne_eq] at hrouted
    exact ⟨hrouted.1.1.1, hrouted.1.1.2, hrouted.1.2⟩

/-- C1, amended, on the session reached by `Bind("foo")`: the loop runs
through the frames foo/1, bar/2, foo/3, of which `bar` is bound to nothing,
and the queue receives foo/1 and foo/3, in this order. -/
theorem C1_dispatch_order_witness :
    (pClient ws0).run [Op.Bind "foo"] = .ok ((pClient ws0).Bind "foo").client ∧
    ∃ s, ((pClient ws0).Bind "foo").client.dispatch
        [{ Event := "foo", Data := "1" }, { Event := "bar", Data := "2" },
          { Event := "foo", Data := "3" }] = .ok s ∧
      s.chans[0]? = some { buf := [{ Event := "foo", Data := "1" }, { Event := "foo", Data := "3" }],
                           cap := 1000, closed := false } :=
  ⟨by decide,
    Exists.elim
      ((C1_dispatch_order ws0 [Op.Bind "foo"] ((pClient ws0).Bind "foo").client
          (by decide)).2.1
        [{ Event := "foo", Data := "1" }, { Event := "bar", Data := "2" },
          { Event := "foo", Data := "3" }]
        (by
          intro r ch hch _
          cases r with
          | zero =>
            have h : ch = { buf := [], cap := 1000, closed := false } := by
              simpa [pClient, Client.Bind, mapLookup, Chan.make, EVENT_CHANNEL_BUFF_SIZE,
                eq_comm] using hch
            subst h
            decide
          | succ r =>
            simp [pClient, Client.Bind, mapLookup] at hch))
      (fun s hs => ⟨s, hs,
        ((C1_dispatch_order ws0 [Op.Bind "foo"] ((pClient ws0).Bind "foo").client
            (by decide)).1 "foo" 0 { buf := [], cap := 1000, closed := false }
          (by decide) (by decide) (by decide) (by decide) (by decide)).1 _ s hs⟩)⟩

/-- C5, the code at `Bind("foo")`, `Unbind("foo")`, `Close()` on a new
session: `Bind` hands out the channel value 0, the three calls complete, and
in the state after `Close` that channel is still open. -/
theorem C5_unbound_queue_stays_open :
    ((pClient ws0).Bind "foo").dataChannel = some 0 ∧
    (pClient ws0).run [Op.Bind "foo", Op.Unbind "foo", Op.Close]
      = .ok { ws := { sent := [], closed := true },
              subscribedChannels := { channels := [] },
              binders := [],
              heartbeatStopCh := 1,
              chans := [{ buf := [], cap := 1000, closed := false }],
              logged := [] } := by
  decide

/-- C6: in every state reachable from a new session `Close` completes
(neither panic nor blocking), and a second `Close` completes and returns the
very same state.  In that state the registry is empty, every channel that
was in the registry went from open to closed, every other channel is
untouched, the connection is closed and exactly one stop value is pending. -/
theorem C6_close_idempotent (ws : Conn) (ops : List Op) (c : Client)
    (hreach : (pClient ws).run ops = .ok c) :
    ∃ c1, c.Close = .ok c1 ∧ c1.Close = .ok c1 ∧
      c1.binders = [] ∧ c1.heartbeatStopCh = 1 ∧ c1.ws.closed = true ∧
      (∀ kv ∈ c.binders, ∃ ch, c.chans[kv.2]? = some ch ∧ ch.closed = false ∧
        c1.chans[kv.2]? = some { ch with closed := true }) ∧
      (∀ q, q ∉ c.binders.map Prod.snd → c1.chans[q]? = c.chans[q]?) := by
  have hinv : Inv c := (run_inv ops (pClient ws) (Inv_pClient ws)).2 c hreach
  obtain ⟨c1, hc1, hws, _, hstop, _, hnil, _, hother, hclosed⟩ := Close_ok hinv
  refine ⟨c1, hc1, ?_, hnil, hstop, by rw [hws]; rfl, ?_, hother⟩
  · obtain ⟨ws1, sub1, b1, st1, ch1, lg1⟩ := c1
    simp only [] at hnil hstop hws
    subst hnil hstop hws
    simp [Client.Close, closeBinders, Outcome.bind, Conn.Close]
  · intro kv hkv
    obtain ⟨ch, hch, hcl⟩ := chanOpen_iff.mp (hinv.2.2.1 kv hkv)
    exact ⟨ch, hch, hcl, hclosed kv.2 (List.mem_map_of_mem Prod.snd hkv) ch hch⟩

/-- C6 on the session reached by `Bind("foo")`. -/
theorem C6_close_idempotent_witness :
    (pClient ws0).run [Op.Bind "foo"] = .ok ((pClient ws0).Bind "foo").client ∧
    ∃ c1, ((pClient ws0).Bind "foo").client.Close = .ok c1 ∧ c1.Close = .ok c1 ∧
      c1.binders = [] ∧ c1.heartbeatStopCh = 1 ∧ c1.ws.closed = true ∧
      (∀ kv ∈ ((pClient ws0).Bind "foo").client.binders,
        ∃ ch, ((pClient ws0).Bind "foo").client.chans[kv.2]? = some ch ∧ ch.closed = false ∧
          c1.chans[kv.2]? = some { ch with closed := true }) ∧
      (∀ q, q ∉ ((pClient ws0).Bind "foo").client.binders.map Prod.snd →
        c1.chans[q]? = ((pClient ws0).Bind "foo").client.chans[q]?) :=
  ⟨by decide,
    C6_close_idempotent ws0 [Op.Bind "foo"] ((pClient ws0).Bind "foo").client (by decide)⟩

/-- C8: when the dial and the first read succeed, the frame read decodes to
an event named `pusher:error` and its payload decodes to a code and a
message, `NewCustomClient` returns no client, the error
"Pusher return error : code : <code>, message <message>" built from exactly
that code and message, and starts neither `heartbeat` nor `listen`. -/
theorem C8_handshake_rejected (env : Env) (appKey host scheme : String) (ws : Conn)
    (resp : String) (event : Event) (code : Int) (message : String)
    (hdial : env.Dial (scheme ++ "://" ++ host ++ "/app/" ++ appKey ++ "?protocol=" ++ "7") ""
      "http://localhost/" = .ok ws)
    (hread : env.Read ws = .ok resp)
    (hevent : env.UnmarshalEvent resp = .ok event)
    (hname : event.Event = "pusher:error")
    (hdata : env.UnmarshalEventError event.Data = .ok { Message := message, Code := code }) :
    NewCustomClient env appKey host scheme
      = { client := none,
          err := some ("Pusher return error : code : " ++ toString code
                        ++ ", message " ++ message),
          started := [] } := by
  have hdial1 : env.Dial
      (scheme ++ "://" ++ host ++ "/app/" ++ appKey ++ "?protocol=" ++ PROTOCOL_VERSION) ""
      "http://localhost/" = .ok ws := hdial
  simp only [NewCustomClient, hdial1, hread, hevent, hname, hdata, if_true]

/-- C8 on the handshake of the spec: the payload with code 4001 and message
"bad key" gives the error "Pusher return error : code : 4001, message bad key". -/
theorem C8_handshake_rejected_witness :
    rejectEnv.UnmarshalEvent rejectFrame = .ok { Event := "pusher:error", Data := rejectData } ∧
    rejectEnv.UnmarshalEventError rejectData = .ok { Message := "bad key", Code := 4001 } ∧
    NewCustomClient rejectEnv "key" "ws.pusherapp.com:443" "wss"
      = { client := none,
          err := some "Pusher return error : code : 4001, message bad key",
          started := [] } :=
  ⟨by simp [rejectEnv], by simp [rejectEnv],
    C8_handshake_rejected rejectEnv "key" "ws.pusherapp.com:443" "wss" ws0 rejectFrame
      { Event := "pusher:error", Data := rejectData } 4001 "bad key"
      rfl rfl (by simp [rejectEnv]) rfl (by simp [rejectEnv])⟩

/-- C10: no sequence of steps from a new session panics, and in every state
such a sequence reaches every channel stored in the registry of binders is
an open channel of the heap; so in that state no iteration of the dispatch
loop panics, whatever it receives, and `Close` does not panic. -/
theorem C10_bound_queues_open (ws : Conn) (ops : List Op) :
    (pClient ws).run ops ≠ .panic ∧
    ∀ c, (pClient ws).run ops = .ok c →
      (∀ kv ∈ c.binders, ∃ ch, c.chans[kv.2]? = some ch ∧ ch.closed = false) ∧
      (∀ recv, c.listenIter recv ≠ .panic) ∧
      c.Close ≠ .panic := by
  obtain ⟨h1, h2⟩ := run_inv ops (pClient ws) (Inv_pClient ws)
  refine ⟨h1, ?_⟩
  intro c hc
  have hinv := h2 c hc
  refine ⟨?_, ?_, ?_⟩
  · intro kv hkv
    exact chanOpen_iff.mp (hinv.2.2.1 kv hkv)
  · intro recv
    exact (listenIter_inv hinv recv).1
  · obtain ⟨c1, hc1, _⟩ := Close_ok hinv
    rw [hc1]
    simp

/-- C10 on `Bind("foo")`, a dispatched frame `foo`, `Unbind("foo")`,
`Bind("foo")`: the state reached binds `foo` to the open channel 1. -/
theorem C10_bound_queues_open_witness :
    (pClient ws0).run [Op.Bind "foo", Op.listen (.ok { Event := "foo", Data := "1" }),
        Op.Unbind "foo", Op.Bind "foo"]
      = .ok { ws := ws0, subscribedChannels := { channels := [] }, binders := [("foo", 1)],
              heartbeatStopCh := 0,
              chans := [{ buf := [{ Event := "foo", Data := "1" }], cap := 1000, closed := false },
                        { buf := [], cap := 1000, closed := false }],
              logged := [] } ∧
    (∀ kv ∈ [(("foo" : String), (1 : Nat))],
      ∃ ch, [({ buf := [{ Event := "foo", Data := "1" }], cap := 1000, closed := false } : Chan),
              { buf := [], cap := 1000, closed := false }][kv.2]? = some ch ∧ ch.closed = false) :=
  ⟨by decide,
    ((C10_bound_queues_open ws0 [Op.Bind "foo", Op.listen (.ok { Event := "foo", Data := "1" }),
        Op.Unbind "foo", Op.Bind "foo"]).2
      { ws := ws0, subscribedChannels := { channels := [] }, binders := [("foo", 1)],
        heartbeatStopCh := 0,
        chans := [{ buf := [{ Event := "foo", Data := "1" }], cap := 1000, closed := false },
                  { buf := [], cap := 1000, closed := false }],
        logged := [] } (by decide)).1⟩

end Pusher
